import Mathlib

/-!
Verification development for the code-doc-assistant repository
(a browser utility in src/main.js that connects to a GitHub repository,
selects a bounded set of source files, and asks a completion endpoint to
generate README documentation).

The JavaScript source is shallowly embedded: network calls become explicit
`Except`-valued inputs, the browser storage slot becomes an explicit
`Option RepoIdentity` value threaded through the connect flow, and the one
outgoing completion request is recorded in an effect trace.  Strings are
modelled as Lean `String`s; the URL is handled at the character-list level
because the regular-expression search walks the string character by
character.
-/

/- ## Data model -/

/-- The `(owner, repo)` pair cached under the `currentRepo` storage key. -/
structure RepoIdentity where
  owner : String
  repo : String
deriving Repr, DecidableEq

/-- A selected source file, as pushed by the recursive walk:
`files.push(\x7b path: item.path, content \x7d)`. -/
structure SourceFile where
  path : String
  content : String
deriving Repr, DecidableEq

/-- Failure of one remote HTTP request: a non-2xx status (axios rejects with
`error.response.status`) or a network-level error with no response. -/
inductive HttpFailure where
  | status (code : Nat)
  | network
deriving Repr, DecidableEq

/-- Error taxonomy of the connect flow, following the catch block of
`connectRepository` (token missing, bad URL input, 401, 404, other). -/
inductive ConnectError where
  | configError (msg : String)
  | inputError (msg : String)
  | authError
  | notFoundError
  | transportError
deriving Repr, DecidableEq

/- ## URL parsing: `repoUrl.match(/github\.com\/([^/]+)\/([^/]+)/)` -/

/-- The literal part of the pattern, `github.com/` (the dot is escaped in the
regular expression, so it only matches a period). -/
def ghLit : List Char := "github.com/".toList

/-- Match a literal at the head of the input; return the remainder on
success.  This models the literal `github\.com\/` part of the pattern. -/
def dropLit : List Char → List Char → Option (List Char)
  | [], l => some l
  | _ :: _, [] => none
  | c :: cs, x :: xs => if x = c then dropLit cs xs else none

/-- Second half of the pattern, `\/([^/]+)`, applied to what remains after
the greedy first capture group: the next character must be a literal `/`,
and the second group takes the next maximal nonempty run of non-`/`
characters. -/
def repoPart (owner : List Char) : List Char → Option (String × String)
  | [] => none
  | x :: rest2 =>
    if x = '/' then
      let repo := rest2.takeWhile (fun c => c != '/')
      if repo = [] then none else some (⟨owner⟩, ⟨repo⟩)
    else none

/-- Try the whole pattern `github\.com\/([^/]+)\/([^/]+)` at one fixed
position.  `[^/]+` is greedy: it takes the maximal run of non-`/` characters
(`takeWhile`), and no backtracking can help because a shorter run would leave
a non-`/` character facing the literal `/`. -/
def matchAt (l : List Char) : Option (String × String) :=
  match dropLit ghLit l with
  | none => none
  | some rest =>
    let owner := rest.takeWhile (fun c => c != '/')
    if owner = [] then none
    else repoPart owner (rest.dropWhile (fun c => c != '/'))

/-- Unanchored search: `String.prototype.match` scans left to right and
returns the first position at which the pattern matches. -/
def searchMatch : List Char → Option (String × String)
  | [] => none
  | c :: rest =>
    match matchAt (c :: rest) with
    | some r => some r
    | none => searchMatch rest

/-- The input-validation steps of `connectRepository`: empty input throws
`Please enter a repository URL`; a failed regular-expression match throws
`Invalid GitHub repository URL`; otherwise the two capture groups become
`(owner, repo)`. -/
def parseRepoUrl (url : List Char) : Except ConnectError (String × String) :=
  if url = [] then .error (.inputError ("Please enter a repository URL"))
  else
    match searchMatch url with
    | some (owner, repo) => .ok (owner, repo)
    | none => .error (.inputError ("Invalid GitHub repository URL"))

/-- A character list free of path separators (one `[^/]+` capture group). -/
def noSlash (l : List Char) : Bool := l.all (fun c => c != '/')

/-- Modelled from the spec: an input of the shape `host/<owner>/<repo>`
(host fixed to `github.com`), possibly embedded after a prefix such as a URL
scheme and optionally followed by further text (more path segments, etc.). -/
def UrlShape (s : List Char) : Prop :=
  ∃ p a b t, s = p ++ (ghLit ++ (a ++ '/' :: (b ++ t))) ∧
    a ≠ [] ∧ b ≠ [] ∧ noSlash a = true ∧ noSlash b = true

/-- How the catch block of `connectRepository` translates an axios failure:
`error.response?.status === 401` / `404` / anything else. -/
def classifyConnectFailure (f : HttpFailure) : ConnectError :=
  match f with
  | .status 401 => .authError
  | .status 404 => .notFoundError
  | _ => .transportError

/-- Observable outcome of one run of `connectRepository`.  `silent` is the
branch where axios resolved but the status is a non-200 2xx code: the code
neither stores nor reports anything there. -/
inductive ConnectOutcome where
  | connected
  | silent
  | failed (e : ConnectError)
deriving Repr, DecidableEq

/-- `connectRepository`: token guard, URL input guard, regular-expression
parse, repository-existence lookup (`GET /repos/owner/repo`), and on a 200
response `localStorage.setItem('currentRepo', JSON.stringify(\x7b owner, repo \x7d))`.
The storage slot is passed in and returned explicitly; every failure path
leaves it untouched. -/
def connectRepository (tokenPresent : Bool) (url : List Char)
    (lookup : Except HttpFailure Nat) (store : Option RepoIdentity) :
    ConnectOutcome × Option RepoIdentity :=
  if ¬ tokenPresent then (.failed (.configError ("GitHub token is not configured")), store)
  else
    match parseRepoUrl url with
    | .error e => (.failed e, store)
    | .ok (owner, repo) =>
      match lookup with
      | .error f => (.failed (classifyConnectFailure f), store)
      | .ok code =>
        if code = 200 then (.connected, some ⟨owner, repo⟩)
        else (.silent, store)

/- ## Source File Selector: `getMainSourceFiles` / `getFilesFromDirectory` -/

/-- JavaScript `String.prototype.includes`, at the character-list level:
`sub` occurs contiguously in `l` (always true for the empty needle). -/
def hasSub (l sub : List Char) : Bool :=
  if sub.isPrefixOf l then true
  else match l with
    | [] => false
    | _ :: rest => hasSub rest sub

/-- `name.includes(sub)` on Lean strings. -/
def strIncludes (s sub : String) : Bool := hasSub s.toList sub.toList

/-- `name.endsWith(suffixText)`. -/
def endsWithL (s sufText : String) : Bool := sufText.toList.isSuffixOf s.toList

/-- `path.toLowerCase()` (character-wise lowering; identical to JavaScript on
the ASCII paths involved here). -/
def lowerStr (s : String) : String := ⟨s.toList.map Char.toLower⟩

/-- One entry met by the recursive walk.  A `file` carries the outcome of its
`getFileContent` fetch, a `dir` the outcome of its `getRepositoryContents`
listing; `other` stands for entries whose `type` is neither `'file'` nor
`'dir'` (symlinks, submodules), which the walk ignores. -/
inductive Item where
  | file (name path : String) (content : Except HttpFailure String)
  | dir (path : String) (contents : Except HttpFailure (List Item))
  | other (path : String)

/-- The admission filter of the walk: a source-like extension
(`.js`/`.ts`/`.jsx`/`.tsx`) and none of the three excluded name fragments
(`.test.`, `.spec.`, `.config.`). -/
def eligibleFileName (name : String) : Bool :=
  (endsWithL name (".js") || endsWithL name (".ts") ||
   endsWithL name (".jsx") || endsWithL name (".tsx")) &&
  !(strIncludes name (".test.")) && !(strIncludes name (".spec.")) &&
  !(strIncludes name (".config."))

/-- The recursive walk `getFilesFromDirectory`: eligible files whose content
fetch succeeded are pushed in traversal order; a failed file fetch or a
failed subdirectory listing is caught in its own try/catch and contributes
nothing; subdirectories are expanded in place. -/
def getFilesFromDirectory : List Item → List SourceFile
  | [] => []
  | .file name path c :: rest =>
      (if eligibleFileName name then
        match c with
        | .ok content => [⟨path, content⟩]
        | .error _ => []
      else []) ++ getFilesFromDirectory rest
  | .dir _ (.ok items) :: rest => getFilesFromDirectory items ++ getFilesFromDirectory rest
  | .dir _ (.error _) :: rest => getFilesFromDirectory rest
  | .other _ :: rest => getFilesFromDirectory rest

/-- The fixed priority fragments `['index', 'main', 'app']`. -/
def priorityList : List String := ["index", "main", "app"]

/-- `priority.findIndex(p => aName.includes(p))` over the lowercased path;
`findIndex` yields `-1` when no fragment matches. -/
def pathPriority (path : String) : Int :=
  match priorityList.findIdx? (fun p => strIncludes (lowerStr path) p) with
  | some i => (i : Int)
  | none => -1

/-- The comparator passed to `files.sort`. -/
def compareFiles (a b : SourceFile) : Int :=
  let aPriority := pathPriority a.path
  let bPriority := pathPriority b.path
  if aPriority ≠ -1 ∧ bPriority ≠ -1 then aPriority - bPriority
  else if aPriority ≠ -1 then -1
  else if bPriority ≠ -1 then 1
  else 0

/-- Stable insertion of one element: it goes after exactly those elements
that compare strictly below it. -/
def insertSorted (x : SourceFile) : List SourceFile → List SourceFile
  | [] => [x]
  | y :: ys => if compareFiles y x < 0 then y :: insertSorted x ys else x :: y :: ys

/-- `files.sort(comparator)`.  ECMAScript `Array.prototype.sort` is stable,
and this comparator is induced by a total preorder, so the sorted result is
unique; stable insertion sort realises it. -/
def sortFiles : List SourceFile → List SourceFile
  | [] => []
  | x :: xs => insertSorted x (sortFiles xs)

/-- Rank of a file under the comparator: index of the first matching
priority fragment, `3` when none matches. -/
def fileKey (f : SourceFile) : Nat :=
  match priorityList.findIdx? (fun p => strIncludes (lowerStr f.path) p) with
  | some i => i
  | none => 3

/-- Modelled from the spec: entries matching an earlier fragment sort before
entries matching a later one, entries matching none come after all matches,
and ties keep their relative input order (`filter` preserves order). -/
def sortedBuckets (l : List SourceFile) : List SourceFile :=
  l.filter (fun f => fileKey f = 0) ++ l.filter (fun f => fileKey f = 1) ++
  l.filter (fun f => fileKey f = 2) ++ l.filter (fun f => fileKey f = 3)

/-- `getMainSourceFiles`: its inner try/catch turns a failed `src` listing
into the empty result; otherwise the walk runs, the files are sorted by the
comparator, and `files.slice(0, 5)` keeps at most five.  The remaining steps
are pure, so the outer catch (which would rethrow) is unreachable. -/
def getMainSourceFiles (srcListing : Except HttpFailure (List Item)) :
    Except HttpFailure (List SourceFile) :=
  match srcListing with
  | .error _ => .ok []
  | .ok srcContents => .ok ((sortFiles (getFilesFromDirectory srcContents)).take 5)

/- ## Repository Structure Fetcher: `getRepositoryStructure` -/

/-- The repository-metadata response body (only `description` is used). -/
structure RepoMetadata where
  description : Option String
deriving Repr, DecidableEq

/-- A parsed `package.json`.  Only the `dependencies` field is consumed,
already rendered to text (`JSON.stringify(deps, null, 2)` is abstracted);
`none` models a manifest without a `dependencies` field. -/
structure PackageJson where
  dependencies : Option String
deriving Repr, DecidableEq

/-- The transient structure `\x7b description, packageJson, readme \x7d`. -/
structure RepositoryStructure where
  description : Option String
  packageJson : Option PackageJson
  readme : Option String
deriving Repr, DecidableEq

/-- `getRepositoryStructure`: the metadata request is mandatory and its
failure propagates; the `package.json` fetch-and-parse and the `README.md`
fetch are each wrapped in their own try/catch and degrade to `null`.
`parseJson` abstracts `JSON.parse` (`none` = parse throws). -/
def getRepositoryStructure (metadataRes : Except HttpFailure RepoMetadata)
    (packageRes : Except HttpFailure String) (parseJson : String → Option PackageJson)
    (readmeRes : Except HttpFailure String) : Except HttpFailure RepositoryStructure :=
  match metadataRes with
  | .error e => .error e
  | .ok meta =>
    let packageJson : Option PackageJson :=
      match packageRes with
      | .ok s => parseJson s
      | .error _ => none
    let readme : Option String :=
      match readmeRes with
      | .ok s => some s
      | .error _ => none
    .ok ⟨meta.description, packageJson, readme⟩

/- ## Documentation Generator: `generateDocumentation` -/

/-- Error taxonomy of the generate flow: missing key, bad caller input,
a propagated GitHub fetch failure, or a malformed/failed completion
response. -/
inductive GenError where
  | configError (msg : String)
  | inputError (msg : String)
  | fetchError (f : HttpFailure)
  | transportError
deriving Repr, DecidableEq

/-- `message` object of one completion choice. -/
structure ChoiceMessage where
  content : String
deriving Repr, DecidableEq

/-- One element of the completion response's `choices` array. -/
structure Choice where
  message : ChoiceMessage
deriving Repr, DecidableEq

/-- The completion response body; `choices = none` models a body without a
`choices` field. -/
structure CompletionData where
  choices : Option (List Choice)
deriving Repr, DecidableEq

/-- `response.data.choices[0].message.content`.  With a missing or empty
`choices` array, `choices[0]` is `undefined` and the `.message` access
throws a TypeError, which the handler catches — per the spec's taxonomy a
malformed response body, `TransportError`. -/
def extractDocumentation (d : CompletionData) : Except GenError String :=
  match d.choices with
  | none => .error .transportError
  | some [] => .error .transportError
  | some (c :: _) => .ok c.message.content

/-- `repoStructure.description || 'No description provided'` (the empty
string is falsy in JavaScript). -/
def descriptionText (d : Option String) : String :=
  match d with
  | some s => if s = "" then "No description provided" else s
  | none => "No description provided"

/-- `repoStructure.readme ? '\nFrom README:\n' + repoStructure.readme : ''`. -/
def readmeBlock (r : Option String) : String :=
  match r with
  | some s => if s = "" then "" else "\nFrom README:\n" ++ s
  | none => ""

/-- Rendered dependency listing; a manifest without a `dependencies` field
stringifies to `undefined`, which string concatenation renders literally. -/
def dependenciesText (p : PackageJson) : String :=
  match p.dependencies with
  | some d => d
  | none => "undefined"

/-- `repoStructure.packageJson ? '\nDependencies:\n' + ... : ''`
(a parsed object is always truthy). -/
def packageBlock (p : Option PackageJson) : String :=
  match p with
  | some pj => "\nDependencies:\n" ++ dependenciesText pj
  | none => ""

/-- `Array.prototype.join(sep)`. -/
def joinWith (sep : String) : List String → String
  | [] => ""
  | [x] => x
  | x :: y :: rest => x ++ sep ++ joinWith sep (y :: rest)

/-- `sourceFiles.map(file => ...).join('\n')`. -/
def sourceFilesText (files : List SourceFile) : String :=
  joinWith "\n" (files.map (fun f => "\n--- " ++ f.path ++ " ---\n" ++ f.content))

/-- The fixed instruction text that closes the user prompt. -/
def promptTail : String :=
  "\n\nPlease provide a comprehensive README.md including:\n1. Project Title and Description\n2. Features\n3. Technologies Used\n4. Installation Guide\n5. Usage Instructions\n6. API Reference\n   - Detailed list of all functions/methods\n   - Parameters and return values\n   - Example usage for each endpoint/function\n7. Architecture Overview\n8. Contributing Guidelines\n9. Changelog\n   - Version history\n   - Notable changes\n   - Breaking changes\n10. License Information\n\nFor the API Reference and Changelog sections, please structure them as collapsible sections using markdown:\n\n<details>\n<summary>API Reference</summary>\n\n[API documentation content here]\n\n</details>\n\n<details>\n<summary>Changelog</summary>\n\n[Changelog content here]\n\n</details>\n\nFormat the response as a proper README.md file with appropriate markdown syntax."

/-- The part of the user prompt before the README block. -/
def promptPre (repoInfo : RepoIdentity) (st : RepositoryStructure) : String :=
  "Generate a README.md documentation for the project " ++ repoInfo.owner ++ "/" ++
  repoInfo.repo ++ "\n\nProject Context:\n" ++ descriptionText st.description ++ "\n"

/-- The part of the user prompt after the README block. -/
def promptPost (st : RepositoryStructure) (files : List SourceFile) : String :=
  "\n" ++ packageBlock st.packageJson ++ "\n\nSource Files:\n" ++
  sourceFilesText files ++ promptTail

/-- The full user-role message of the completion request (the template
literal at the heart of `generateDocumentation`). -/
def buildPrompt (repoInfo : RepoIdentity) (st : RepositoryStructure)
    (files : List SourceFile) : String :=
  promptPre repoInfo st ++ readmeBlock st.readme ++ promptPost st files

/-- The fixed system-role message. -/
def systemPrompt : String :=
  "You are a technical documentation expert. Generate comprehensive documentation in a clear, well-structured README format. Include detailed code examples, API references, and changelog where relevant."

/-- The payload POSTed to `/v1/chat/completions` (sampling temperature is a
floating-point literal and is not modelled). -/
structure CompletionRequest where
  model : String
  systemContent : String
  userContent : String
  maxTokens : Nat
deriving Repr, DecidableEq

/-- Assembles the completion request from line 300 onward. -/
def buildRequest (repoInfo : RepoIdentity) (st : RepositoryStructure)
    (files : List SourceFile) : CompletionRequest :=
  { model := "gpt-4-turbo-preview", systemContent := systemPrompt,
    userContent := buildPrompt repoInfo st files, maxTokens := 4000 }

/-- `generateDocumentation`, from the key guard to the extraction of the
completion text.  The GitHub-side results (`structureResult`, the selector's
file list) arrive as inputs; the second component records every completion
request issued, so an empty trace means the completion endpoint was never
contacted. -/
def generateDocumentation (apiKeyPresent : Bool) (currentRepo : Option RepoIdentity)
    (structureResult : Except HttpFailure RepositoryStructure)
    (sourceFiles : List SourceFile) (completion : CompletionData) :
    Except GenError String × List CompletionRequest :=
  if ¬ apiKeyPresent then (.error (.configError ("OpenAI API key is not configured")), [])
  else
    match currentRepo with
    | none => (.error (.inputError ("Please connect a repository first")), [])
    | some repoInfo =>
      match structureResult with
      | .error f => (.error (.fetchError f), [])
      | .ok repoStructure =>
        if sourceFiles.length = 0 then
          (.error (.inputError ("No source files found. Please ensure the repository contains JavaScript/TypeScript files.")), [])
        else
          let req := buildRequest repoInfo repoStructure sourceFiles
          match extractDocumentation completion with
          | .error e => (.error e, [req])
          | .ok doc => (.ok doc, [req])

/- ## Fixtures for concrete runs used in the theorems below -/

/-- The directory listing of the worked example: six files directly under
`src`, with distinct placeholder bodies. -/
def c1Items : List Item :=
  [ .file ("utils.js") ("src/utils.js") (.ok ("cu")),
    .file ("index.js") ("src/index.js") (.ok ("ci")),
    .file ("app.jsx") ("src/app.jsx") (.ok ("ca")),
    .file ("main.ts") ("src/main.ts") (.ok ("cm")),
    .file ("x.test.js") ("src/x.test.js") (.ok ("ct")),
    .file ("y.config.js") ("src/y.config.js") (.ok ("cc")) ]

/-- Fixtures for the C10 witness. -/
def c10St : RepositoryStructure := ⟨none, none, some ("MYREADME")⟩

def c10Files : List SourceFile := [⟨"src/a.js", "x"⟩]

def c10Completion : CompletionData := ⟨some [⟨⟨"doc"⟩⟩]⟩


/- ## Helper lemmas: character runs and the pattern search -/

theorem all_takeWhile_self {p : Char → Bool} : ∀ (l : List Char), (l.takeWhile p).all p = true := by
  intro l
  induction l with
  | nil => rfl
  | cons x xs ih =>
    by_cases hx : p x = true
    · simp [List.takeWhile_cons, hx, List.all_cons, ih]
    · simp [List.takeWhile_cons, hx]

theorem takeWhile_append_all {p : Char → Bool} (xs ys : List Char) (h : xs.all p = true) :
    (xs ++ ys).takeWhile p = xs ++ ys.takeWhile p ∧ (xs ++ ys).dropWhile p = ys.dropWhile p := by
  induction xs with
  | nil => simp
  | cons x xt ih =>
    simp only [List.all_cons, Bool.and_eq_true] at h
    have hrec := ih h.2
    simp [List.takeWhile_cons, List.dropWhile_cons, h.1, hrec.1, hrec.2]

theorem takeWhile_all_self {p : Char → Bool} (xs : List Char) (h : xs.all p = true) :
    xs.takeWhile p = xs ∧ xs.dropWhile p = [] := by
  have := takeWhile_append_all xs [] h
  simpa using this

theorem dropLit_append : ∀ (lit r : List Char), dropLit lit (lit ++ r) = some r := by
  intro lit
  induction lit with
  | nil => intro r; rfl
  | cons c cs ih => intro r; simp [dropLit, ih]

theorem dropLit_eq_some : ∀ (lit l rest : List Char), dropLit lit l = some rest → l = lit ++ rest := by
  intro lit
  induction lit with
  | nil =>
    intro l rest h
    simp [dropLit] at h
    simp [h]
  | cons c cs ih =>
    intro l rest h
    match l with
    | [] => simp [dropLit] at h
    | x :: xs =>
      simp only [dropLit] at h
      by_cases hx : x = c
      · rw [if_pos hx] at h
        subst hx
        simp [ih xs rest h]
      · rw [if_neg hx] at h
        exact absurd h (by simp)

theorem sepChar_false : (('/' : Char) != '/') = false := by decide

theorem takeWhile_sep_head (l : List Char) :
    ('/' :: l).takeWhile (fun c => c != '/') = [] := by
  simp [List.takeWhile_cons]

theorem dropWhile_sep_head (l : List Char) :
    ('/' :: l).dropWhile (fun c => c != '/') = '/' :: l := by
  simp [List.dropWhile_cons]

theorem matchAt_eval (rest : List Char) :
    matchAt (ghLit ++ rest) =
      (if rest.takeWhile (fun c => c != '/') = [] then none
       else repoPart (rest.takeWhile (fun c => c != '/'))
              (rest.dropWhile (fun c => c != '/'))) := by
  unfold matchAt
  rw [dropLit_append]

theorem matchAt_exact (a b t : List Char) (ha : a ≠ []) (hb : b ≠ [])
    (hna : noSlash a = true) (hnb : noSlash b = true)
    (ht : t = [] ∨ ∃ t2, t = '/' :: t2) :
    matchAt (ghLit ++ (a ++ '/' :: (b ++ t))) = some (⟨a⟩, ⟨b⟩) := by
  have h1 := takeWhile_append_all (p := fun c => c != '/') a ('/' :: (b ++ t)) hna
  have htw : (a ++ '/' :: (b ++ t)).takeWhile (fun c => c != '/') = a := by
    rw [h1.1, takeWhile_sep_head, List.append_nil]
  have hdw : (a ++ '/' :: (b ++ t)).dropWhile (fun c => c != '/') = '/' :: (b ++ t) := by
    rw [h1.2, dropWhile_sep_head]
  have hrepo : (b ++ t).takeWhile (fun c => c != '/') = b := by
    rcases ht with rfl | ⟨t2, rfl⟩
    · simpa using (takeWhile_all_self (p := fun c => c != '/') b hnb).1
    · rw [(takeWhile_append_all (p := fun c => c != '/') b ('/' :: t2) hnb).1,
        takeWhile_sep_head, List.append_nil]
  rw [matchAt_eval, htw, hdw, if_neg ha]
  simp only [repoPart]
  rw [if_true, hrepo, if_neg hb]

theorem matchAt_isSome (a b t : List Char) (ha : a ≠ []) (hb : b ≠ [])
    (hna : noSlash a = true) (hnb : noSlash b = true) :
    (matchAt (ghLit ++ (a ++ '/' :: (b ++ t)))).isSome = true := by
  have h1 := takeWhile_append_all (p := fun c => c != '/') a ('/' :: (b ++ t)) hna
  have htw : (a ++ '/' :: (b ++ t)).takeWhile (fun c => c != '/') = a := by
    rw [h1.1, takeWhile_sep_head, List.append_nil]
  have hdw : (a ++ '/' :: (b ++ t)).dropWhile (fun c => c != '/') = '/' :: (b ++ t) := by
    rw [h1.2, dropWhile_sep_head]
  have hrepo : (b ++ t).takeWhile (fun c => c != '/') =
      b ++ t.takeWhile (fun c => c != '/') :=
    (takeWhile_append_all (p := fun c => c != '/') b t hnb).1
  have hbne : b ++ t.takeWhile (fun c => c != '/') ≠ [] := by
    simp [List.append_eq_nil, hb]
  rw [matchAt_eval, htw, hdw, if_neg ha]
  simp only [repoPart]
  rw [if_true, hrepo, if_neg hbne]
  rfl

theorem matchAt_nil : matchAt [] = none := by
  have h : dropLit ghLit [] = none := by decide
  unfold matchAt
  rw [h]

theorem searchMatch_of_head (l : List Char) (r : String × String)
    (h : matchAt l = some r) : searchMatch l = some r := by
  cases l with
  | nil => rw [matchAt_nil] at h; exact absurd h (by simp)
  | cons c rest => simp [searchMatch, h]

theorem searchMatch_isSome_of_drop : ∀ (l : List Char) (n : Nat),
    (matchAt (l.drop n)).isSome = true → (searchMatch l).isSome = true := by
  intro l
  induction l with
  | nil => intro n h; rw [List.drop_nil, matchAt_nil] at h; exact absurd h (by simp)
  | cons c rest ih =>
    intro n h
    cases hm : matchAt (c :: rest) with
    | some r => simp [searchMatch, hm]
    | none =>
      cases n with
      | zero => rw [List.drop_zero, hm] at h; exact absurd h (by simp)
      | succ m =>
        have := ih m (by simpa using h)
        simpa [searchMatch, hm] using this

theorem searchMatch_some_drop : ∀ (l : List Char) (r : String × String),
    searchMatch l = some r → ∃ n, matchAt (l.drop n) = some r := by
  intro l
  induction l with
  | nil => intro r h; simp [searchMatch] at h
  | cons c rest ih =>
    intro r h
    cases hm : matchAt (c :: rest) with
    | some r2 =>
      refine ⟨0, ?_⟩
      rw [List.drop_zero, hm]
      simp [searchMatch, hm] at h
      rw [h]
    | none =>
      have h2 : searchMatch rest = some r := by simpa [searchMatch, hm] using h
      obtain ⟨n, hn⟩ := ih r h2
      exact ⟨n + 1, by simpa using hn⟩

theorem matchAt_some_shape (l : List Char) (o r : String) (h : matchAt l = some (o, r)) :
    ∃ a b t, l = ghLit ++ (a ++ '/' :: (b ++ t)) ∧ a ≠ [] ∧ b ≠ [] ∧
      noSlash a = true ∧ noSlash b = true ∧ o = ⟨a⟩ ∧ r = ⟨b⟩ := by
  cases hd : dropLit ghLit l with
  | none => unfold matchAt at h; rw [hd] at h; exact absurd h (by simp)
  | some rest =>
    have hl : l = ghLit ++ rest := dropLit_eq_some _ _ _ hd
    rw [hl, matchAt_eval] at h
    by_cases howner : rest.takeWhile (fun c => c != '/') = []
    · rw [if_pos howner] at h; exact absurd h (by simp)
    · rw [if_neg howner] at h
      cases hdw : rest.dropWhile (fun c => c != '/') with
      | nil => rw [hdw] at h; exact absurd h (by simp [repoPart])
      | cons x rest2 =>
        rw [hdw] at h
        simp only [repoPart] at h
        by_cases hx : x = '/'
        · rw [if_pos hx] at h
          subst hx
          by_cases hrepo : rest2.takeWhile (fun c => c != '/') = []
          · rw [if_pos hrepo] at h; exact absurd h (by simp)
          · rw [if_neg hrepo] at h
            have hor : o = (⟨rest.takeWhile (fun c => c != '/')⟩ : String) ∧
                r = (⟨rest2.takeWhile (fun c => c != '/')⟩ : String) := by
              simp only [Option.some.injEq, Prod.mk.injEq] at h
              exact ⟨h.1.symm, h.2.symm⟩
            have hr : rest.takeWhile (fun c => c != '/') ++
                rest.dropWhile (fun c => c != '/') = rest :=
              List.takeWhile_append_dropWhile (fun c => c != '/') rest
            have hr2 : rest2.takeWhile (fun c => c != '/') ++
                rest2.dropWhile (fun c => c != '/') = rest2 :=
              List.takeWhile_append_dropWhile (fun c => c != '/') rest2
            have hkey : ghLit ++ (rest.takeWhile (fun c => c != '/') ++
                '/' :: (rest2.takeWhile (fun c => c != '/') ++
                  rest2.dropWhile (fun c => c != '/'))) = l := by
              rw [hr2, ← hdw, hr, ← hl]
            exact ⟨rest.takeWhile (fun c => c != '/'), rest2.takeWhile (fun c => c != '/'),
              rest2.dropWhile (fun c => c != '/'), hkey.symm, howner, hrepo,
              all_takeWhile_self rest, all_takeWhile_self rest2, hor.1, hor.2⟩
        · rw [if_neg hx] at h; exact absurd h (by simp)

theorem matchAt_cons_ne_g (c : Char) (l : List Char) (h : ¬ c = 'g') :
    matchAt (c :: l) = none := by
  have hg : ghLit = 'g' :: "ithub.com/".toList := by decide
  have hd : dropLit ghLit (c :: l) = none := by
    rw [hg]
    simp [dropLit, h]
  unfold matchAt
  rw [hd]

theorem searchMatch_cons (c : Char) (l : List Char) :
    searchMatch (c :: l) =
      (match matchAt (c :: l) with
       | some r => some r
       | none => searchMatch l) := rfl

theorem searchMatch_skip : ∀ (pre : List Char), pre.all (fun c => c != 'g') = true →
    ∀ (l : List Char), searchMatch (pre ++ l) = searchMatch l := by
  intro pre
  induction pre with
  | nil => intro _ l; rfl
  | cons c ps ih =>
    intro h l
    simp only [List.all_cons, Bool.and_eq_true] at h
    have hc : ¬ c = 'g' := by simpa using h.1
    have hm := matchAt_cons_ne_g c (ps ++ l) hc
    rw [List.cons_append, searchMatch_cons, hm]
    exact ih h.2 l

theorem urlShape_of_searchMatch (s : List Char) (o r : String)
    (h : searchMatch s = some (o, r)) : UrlShape s := by
  obtain ⟨n, hn⟩ := searchMatch_some_drop s (o, r) h
  obtain ⟨a, b, t, hdec, ha, hb, hna, hnb, _, _⟩ := matchAt_some_shape _ o r hn
  refine ⟨s.take n, a, b, t, ?_, ha, hb, hna, hnb⟩
  rw [← hdec, List.take_append_drop]

theorem searchMatch_isSome_of_shape (s : List Char) (h : UrlShape s) :
    (searchMatch s).isSome = true := by
  obtain ⟨p, a, b, t, rfl, ha, hb, hna, hnb⟩ := h
  apply searchMatch_isSome_of_drop _ p.length
  rw [List.drop_left]
  exact matchAt_isSome a b t ha hb hna hnb

/-- Claim C3: for every input string of the shape `host/<owner>/<repo>`
(host `github.com`, optionally followed by more path segments), identity
extraction in the connect flow yields exactly the first two path segments as
`(owner, repo)` — both for the bare shape and for the usual scheme-prefixed
URL form — and extraction fails with an `InputError` exactly for the strings
not containing that shape. -/
theorem c3_url_extraction :
    (∀ a b t : List Char, a ≠ [] → b ≠ [] → noSlash a = true → noSlash b = true →
      (t = [] ∨ ∃ t2, t = '/' :: t2) →
      parseRepoUrl (ghLit ++ (a ++ '/' :: (b ++ t))) = .ok (⟨a⟩, ⟨b⟩)) ∧
    (∀ a b t : List Char, a ≠ [] → b ≠ [] → noSlash a = true → noSlash b = true →
      (t = [] ∨ ∃ t2, t = '/' :: t2) →
      parseRepoUrl ("https://".toList ++ (ghLit ++ (a ++ '/' :: (b ++ t)))) =
        .ok (⟨a⟩, ⟨b⟩)) ∧
    (∀ s : List Char, (∃ m, parseRepoUrl s = .error (.inputError m)) ↔ ¬ UrlShape s) := by
  have hmain : ∀ a b t : List Char, a ≠ [] → b ≠ [] → noSlash a = true → noSlash b = true →
      (t = [] ∨ ∃ t2, t = '/' :: t2) →
      searchMatch (ghLit ++ (a ++ '/' :: (b ++ t))) = some (⟨a⟩, ⟨b⟩) := by
    intro a b t ha hb hna hnb ht
    exact searchMatch_of_head _ _ (matchAt_exact a b t ha hb hna hnb ht)
  have hne : ∀ (x : List Char), ghLit ++ x ≠ [] := by
    intro x hnil
    rw [List.append_eq_nil] at hnil
    exact (by decide : ghLit ≠ []) hnil.1
  refine ⟨?_, ?_, ?_⟩
  · intro a b t ha hb hna hnb ht
    unfold parseRepoUrl
    rw [if_neg (hne _), hmain a b t ha hb hna hnb ht]
  · intro a b t ha hb hna hnb ht
    have hpre : ("https://".toList).all (fun c => c != 'g') = true := by decide
    have hskip := searchMatch_skip ("https://".toList) hpre (ghLit ++ (a ++ '/' :: (b ++ t)))
    have hne2 : "https://".toList ++ (ghLit ++ (a ++ '/' :: (b ++ t))) ≠ [] := by
      intro hnil
      rw [List.append_eq_nil] at hnil
      exact (by decide : "https://".toList ≠ []) hnil.1
    unfold parseRepoUrl
    rw [if_neg hne2, hskip, hmain a b t ha hb hna hnb ht]
  · intro s
    constructor
    · rintro ⟨m, hm⟩ hshape
      have hsome := searchMatch_isSome_of_shape s hshape
      by_cases hs : s = []
      · subst hs
        exact absurd hsome (by simp [searchMatch])
      · unfold parseRepoUrl at hm
        rw [if_neg hs] at hm
        cases hsm : searchMatch s with
        | some pr => rw [hsm] at hm; exact absurd hm (by simp)
        | none => rw [hsm] at hsome; exact absurd hsome (by simp)
    · intro hns
      by_cases hs : s = []
      · exact ⟨"Please enter a repository URL", by rw [hs]; rfl⟩
      · cases hsm : searchMatch s with
        | some pr =>
          exact absurd (urlShape_of_searchMatch s pr.1 pr.2 (by rw [hsm])) hns
        | none =>
          refine ⟨"Invalid GitHub repository URL", ?_⟩
          unfold parseRepoUrl
          rw [if_neg hs, hsm]

/-- Witness for C3 at a concrete scheme-prefixed URL. -/
theorem c3_url_extraction_witness :
    parseRepoUrl ("https://".toList ++ (ghLit ++ ("octocat".toList ++
      '/' :: ("hello-world".toList ++ [])))) = .ok ("octocat", "hello-world") :=
  c3_url_extraction.2.1 ("octocat".toList) ("hello-world".toList) []
    (by decide) (by decide) (by decide) (by decide) (Or.inl rfl)

/- ## Helper lemmas: the recursive walk and the priority sort -/

theorem getFiles_nil : getFilesFromDirectory [] = [] := by
  rw [getFilesFromDirectory.eq_def]

theorem getFiles_cons_file (n p : String) (c : Except HttpFailure String) (rest : List Item) :
    getFilesFromDirectory (.file n p c :: rest) =
      (if eligibleFileName n then
        match c with
        | .ok content => [⟨p, content⟩]
        | .error _ => []
      else []) ++ getFilesFromDirectory rest := by
  rw [getFilesFromDirectory.eq_def]

theorem getFiles_cons_dir_ok (p : String) (items rest : List Item) :
    getFilesFromDirectory (.dir p (.ok items) :: rest) =
      getFilesFromDirectory items ++ getFilesFromDirectory rest := by
  rw [getFilesFromDirectory.eq_def]

theorem getFiles_cons_dir_err (p : String) (e : HttpFailure) (rest : List Item) :
    getFilesFromDirectory (.dir p (.error e) :: rest) = getFilesFromDirectory rest := by
  rw [getFilesFromDirectory.eq_def]

theorem getFiles_cons_other (p : String) (rest : List Item) :
    getFilesFromDirectory (.other p :: rest) = getFilesFromDirectory rest := by
  rw [getFilesFromDirectory.eq_def]

theorem getFiles_append : ∀ (l1 l2 : List Item),
    getFilesFromDirectory (l1 ++ l2) =
      getFilesFromDirectory l1 ++ getFilesFromDirectory l2 := by
  intro l1 l2
  induction l1 with
  | nil => rw [List.nil_append, getFiles_nil, List.nil_append]
  | cons x rest ih =>
    cases x with
    | file n p c =>
      rw [List.cons_append, getFiles_cons_file, getFiles_cons_file, ih, List.append_assoc]
    | dir p c =>
      cases c with
      | ok items =>
        rw [List.cons_append, getFiles_cons_dir_ok, getFiles_cons_dir_ok, ih, List.append_assoc]
      | error e =>
        rw [List.cons_append, getFiles_cons_dir_err, getFiles_cons_dir_err, ih]
    | other p =>
      rw [List.cons_append, getFiles_cons_other, getFiles_cons_other, ih]

theorem fileKey_cases (f : SourceFile) :
    (pathPriority f.path = 0 ∧ fileKey f = 0) ∨ (pathPriority f.path = 1 ∧ fileKey f = 1) ∨
    (pathPriority f.path = 2 ∧ fileKey f = 2) ∨ (pathPriority f.path = -1 ∧ fileKey f = 3) := by
  unfold pathPriority fileKey priorityList
  cases h0 : strIncludes (lowerStr f.path) ("index") <;>
  cases h1 : strIncludes (lowerStr f.path) ("main") <;>
  cases h2 : strIncludes (lowerStr f.path) ("app") <;>
    simp [List.findIdx?_cons, List.findIdx?_nil, h0, h1, h2]

theorem compareFiles_lt_iff (y x : SourceFile) :
    compareFiles y x < 0 ↔ fileKey y < fileKey x := by
  rcases fileKey_cases y with ⟨hy1, hy2⟩ | ⟨hy1, hy2⟩ | ⟨hy1, hy2⟩ | ⟨hy1, hy2⟩ <;>
  rcases fileKey_cases x with ⟨hx1, hx2⟩ | ⟨hx1, hx2⟩ | ⟨hx1, hx2⟩ | ⟨hx1, hx2⟩ <;>
    simp [compareFiles, hy1, hy2, hx1, hx2]

theorem insertSorted_ge (x : SourceFile) (l : List SourceFile)
    (h : ∀ y ∈ l, ¬ compareFiles y x < 0) : insertSorted x l = x :: l := by
  cases l with
  | nil => rfl
  | cons y ys =>
    have hy := h y (List.mem_cons_self y ys)
    simp [insertSorted, hy]

theorem insertSorted_append (x : SourceFile) (A B : List SourceFile)
    (h : ∀ a ∈ A, compareFiles a x < 0) :
    insertSorted x (A ++ B) = A ++ insertSorted x B := by
  induction A with
  | nil => simp
  | cons a as ih =>
    have ha := h a (List.mem_cons_self a as)
    simp [insertSorted, ha, ih (fun b hb => h b (List.mem_cons_of_mem a hb))]

theorem fileKey_of_mem_filter (k : Nat) (l : List SourceFile) (a : SourceFile)
    (ha : a ∈ l.filter (fun f => fileKey f = k)) : fileKey a = k := by
  rw [List.mem_filter] at ha
  simpa using ha.2

theorem sortFiles_eq_sortedBuckets : ∀ l : List SourceFile, sortFiles l = sortedBuckets l := by
  intro l
  induction l with
  | nil => rfl
  | cons x xs ih =>
    rw [show sortFiles (x :: xs) = insertSorted x (sortFiles xs) from rfl, ih]
    unfold sortedBuckets
    have m0 := fun y hy => fileKey_of_mem_filter 0 xs y hy
    have m1 := fun y hy => fileKey_of_mem_filter 1 xs y hy
    have m2 := fun y hy => fileKey_of_mem_filter 2 xs y hy
    have m3 := fun y hy => fileKey_of_mem_filter 3 xs y hy
    rw [List.append_assoc, List.append_assoc, List.append_assoc, List.append_assoc]
    rcases fileKey_cases x with ⟨_, hk⟩ | ⟨_, hk⟩ | ⟨_, hk⟩ | ⟨_, hk⟩
    · have hf0 : (x :: xs).filter (fun f => fileKey f = 0) =
          x :: xs.filter (fun f => fileKey f = 0) := by simp [List.filter_cons, hk]
      have hf1 : (x :: xs).filter (fun f => fileKey f = 1) =
          xs.filter (fun f => fileKey f = 1) := by simp [List.filter_cons, hk]
      have hf2 : (x :: xs).filter (fun f => fileKey f = 2) =
          xs.filter (fun f => fileKey f = 2) := by simp [List.filter_cons, hk]
      have hf3 : (x :: xs).filter (fun f => fileKey f = 3) =
          xs.filter (fun f => fileKey f = 3) := by simp [List.filter_cons, hk]
      rw [hf0, hf1, hf2, hf3, List.cons_append]
      rw [insertSorted_ge x _ ?hall]
      case hall =>
        intro y hy
        rw [compareFiles_lt_iff, hk]
        omega
    · have hf0 : (x :: xs).filter (fun f => fileKey f = 0) =
          xs.filter (fun f => fileKey f = 0) := by simp [List.filter_cons, hk]
      have hf1 : (x :: xs).filter (fun f => fileKey f = 1) =
          x :: xs.filter (fun f => fileKey f = 1) := by simp [List.filter_cons, hk]
      have hf2 : (x :: xs).filter (fun f => fileKey f = 2) =
          xs.filter (fun f => fileKey f = 2) := by simp [List.filter_cons, hk]
      have hf3 : (x :: xs).filter (fun f => fileKey f = 3) =
          xs.filter (fun f => fileKey f = 3) := by simp [List.filter_cons, hk]
      rw [hf0, hf1, hf2, hf3]
      rw [insertSorted_append x _ _ ?hlt, insertSorted_ge x _ ?hge]
      case hlt =>
        intro a hAmem
        rw [compareFiles_lt_iff, hk, m0 a hAmem]
        omega
      case hge =>
        intro y hy
        rw [compareFiles_lt_iff, hk]
        rcases List.mem_append.mp hy with h1 | h23
        · rw [m1 y h1]; omega
        · rcases List.mem_append.mp h23 with h2 | h3
          · rw [m2 y h2]; omega
          · rw [m3 y h3]; omega
      rw [List.cons_append]
    · have hf0 : (x :: xs).filter (fun f => fileKey f = 0) =
          xs.filter (fun f => fileKey f = 0) := by simp [List.filter_cons, hk]
      have hf1 : (x :: xs).filter (fun f => fileKey f = 1) =
          xs.filter (fun f => fileKey f = 1) := by simp [List.filter_cons, hk]
      have hf2 : (x :: xs).filter (fun f => fileKey f = 2) =
          x :: xs.filter (fun f => fileKey f = 2) := by simp [List.filter_cons, hk]
      have hf3 : (x :: xs).filter (fun f => fileKey f = 3) =
          xs.filter (fun f => fileKey f = 3) := by simp [List.filter_cons, hk]
      rw [hf0, hf1, hf2, hf3]
      rw [insertSorted_append x _ _ ?hlt0, insertSorted_append x _ _ ?hlt1,
        insertSorted_ge x _ ?hge]
      case hlt0 =>
        intro a hAmem
        rw [compareFiles_lt_iff, hk, m0 a hAmem]
        omega
      case hlt1 =>
        intro a hAmem
        rw [compareFiles_lt_iff, hk, m1 a hAmem]
        omega
      case hge =>
        intro y hy
        rw [compareFiles_lt_iff, hk]
        rcases List.mem_append.mp hy with h2 | h3
        · rw [m2 y h2]; omega
        · rw [m3 y h3]; omega
      rw [List.cons_append]
    · have hf0 : (x :: xs).filter (fun f => fileKey f = 0) =
          xs.filter (fun f => fileKey f = 0) := by simp [List.filter_cons, hk]
      have hf1 : (x :: xs).filter (fun f => fileKey f = 1) =
          xs.filter (fun f => fileKey f = 1) := by simp [List.filter_cons, hk]
      have hf2 : (x :: xs).filter (fun f => fileKey f = 2) =
          xs.filter (fun f => fileKey f = 2) := by simp [List.filter_cons, hk]
      have hf3 : (x :: xs).filter (fun f => fileKey f = 3) =
          x :: xs.filter (fun f => fileKey f = 3) := by simp [List.filter_cons, hk]
      rw [hf0, hf1, hf2, hf3]
      rw [insertSorted_append x _ _ ?hlt0, insertSorted_append x _ _ ?hlt1,
        insertSorted_append x _ _ ?hlt2, insertSorted_ge x _ ?hge]
      case hlt0 =>
        intro a hAmem
        rw [compareFiles_lt_iff, hk, m0 a hAmem]
        omega
      case hlt1 =>
        intro a hAmem
        rw [compareFiles_lt_iff, hk, m1 a hAmem]
        omega
      case hlt2 =>
        intro a hAmem
        rw [compareFiles_lt_iff, hk, m2 a hAmem]
        omega
      case hge =>
        intro y hy
        rw [compareFiles_lt_iff, hk, m3 y hy]
        omega

theorem c1_files_eval : getFilesFromDirectory c1Items =
    [⟨"src/utils.js", "cu"⟩, ⟨"src/index.js", "ci"⟩,
     ⟨"src/app.jsx", "ca"⟩, ⟨"src/main.ts", "cm"⟩] := by
  unfold c1Items
  rw [getFiles_cons_file, getFiles_cons_file, getFiles_cons_file, getFiles_cons_file,
    getFiles_cons_file, getFiles_cons_file, getFiles_nil]
  decide

/-- Claim C1: on the example listing, the selector drops the test and config
files and returns the other four ordered index, main, app, utils; in
general, files whose lowercased path contains an earlier priority fragment
sort before files matching a later one, files matching none sort after all
matches, and ties keep their relative input order (the bucket
decomposition `sortedBuckets`). -/
theorem c1_selector_example_and_order :
    getMainSourceFiles (.ok c1Items) =
      .ok [⟨"src/index.js", "ci"⟩, ⟨"src/main.ts", "cm"⟩,
           ⟨"src/app.jsx", "ca"⟩, ⟨"src/utils.js", "cu"⟩] ∧
    ∀ l : List SourceFile, sortFiles l = sortedBuckets l := by
  constructor
  · show Except.ok ((sortFiles (getFilesFromDirectory c1Items)).take 5) = _
    rw [c1_files_eval]
    rfl
  · exact sortFiles_eq_sortedBuckets

/-- Claim C2: whatever the repository tree looks like, the selector returns
at most 5 files. -/
theorem c2_selector_bounded (srcListing : Except HttpFailure (List Item))
    (fs : List SourceFile) (h : getMainSourceFiles srcListing = .ok fs) :
    fs.length ≤ 5 := by
  cases srcListing with
  | error e =>
    have hfs : fs = [] := by
      simpa [getMainSourceFiles] using h
    rw [hfs]
    decide
  | ok items =>
    have hfs : (sortFiles (getFilesFromDirectory items)).take 5 = fs := by
      simpa [getMainSourceFiles] using h
    rw [← hfs, List.length_take]
    exact min_le_left 5 _

/-- Witness for C2 at a failed listing. -/
theorem c2_selector_bounded_witness : ([] : List SourceFile).length ≤ 5 :=
  c2_selector_bounded (.error .network) [] rfl

/-- Claim C7: if the listing of the `src` subtree fails, the selector
returns an empty sequence instead of propagating the failure. -/
theorem c7_src_listing_failure (e : HttpFailure) :
    getMainSourceFiles (.error e) = .ok [] := rfl

/-- Claim C8: inside the walk, one file whose content fetch failed, or one
directory whose listing failed, contributes zero files while the rest of
the walk continues unchanged; the walk itself is total, so no per-item
failure ever reaches the caller. -/
theorem c8_per_item_failure_tolerance (pre post : List Item)
    (n p q : String) (e1 e2 : HttpFailure) :
    getFilesFromDirectory (pre ++ .file n p (.error e1) :: post) =
      getFilesFromDirectory pre ++ getFilesFromDirectory post ∧
    getFilesFromDirectory (pre ++ .dir q (.error e2) :: post) =
      getFilesFromDirectory pre ++ getFilesFromDirectory post := by
  constructor
  · rw [getFiles_append, getFiles_cons_file]
    cases eligibleFileName n <;> simp
  · rw [getFiles_append, getFiles_cons_dir_err]

/- ## Helper lemmas: strings as character data -/

theorem str_ext {a b : String} (h : a.data = b.data) : a = b :=
  congrArg String.mk h

theorem str_append_assoc (a b c : String) : (a ++ b) ++ c = a ++ (b ++ c) := by
  apply str_ext
  rw [String.data_append, String.data_append, String.data_append, String.data_append,
    List.append_assoc]

theorem str_append_empty (s : String) : s ++ "" = s := by
  apply str_ext
  rw [String.data_append]
  show s.data ++ [] = s.data
  rw [List.append_nil]

/-- Claim C4: a completion response with an empty or missing choices array
makes the generate flow fail (surfaced as `TransportError`); it never
returns a success value, in particular not a silent empty string. -/
theorem c4_empty_choices_transport_error (key : Bool) (repoInfo : Option RepoIdentity)
    (structureResult : Except HttpFailure RepositoryStructure) (files : List SourceFile)
    (completion : CompletionData) (i : RepoIdentity) (st : RepositoryStructure)
    (hkey : key = true) (hrepo : repoInfo = some i) (hs : structureResult = .ok st)
    (hf : files ≠ []) (hc : completion.choices = none ∨ completion.choices = some []) :
    (generateDocumentation key repoInfo structureResult files completion).1 =
      .error .transportError ∧
    ∀ s, (generateDocumentation key repoInfo structureResult files completion).1 ≠ .ok s := by
  subst hkey
  subst hrepo
  subst hs
  have hlen : ¬ files.length = 0 := by simpa [List.length_eq_zero] using hf
  have hext : extractDocumentation completion = .error .transportError := by
    rcases hc with h | h <;> simp [extractDocumentation, h]
  constructor
  · simp [generateDocumentation, hlen, hext]
  · intro s
    simp [generateDocumentation, hlen, hext]

/-- Witness for C4 at a concrete run. -/
theorem c4_empty_choices_transport_error_witness :
    (generateDocumentation true (some ⟨"o", "r"⟩) (.ok ⟨none, none, none⟩)
      [⟨"p", "c"⟩] ⟨none⟩).1 = .error .transportError :=
  (c4_empty_choices_transport_error true (some ⟨"o", "r"⟩) (.ok ⟨none, none, none⟩)
    [⟨"p", "c"⟩] ⟨none⟩ ⟨"o", "r"⟩ ⟨none, none, none⟩ rfl rfl rfl
    (by simp) (Or.inl rfl)).1

/-- Claim C5: called with an empty selected-file list (and otherwise able to
reach the file check), the generator fails with the `InputError` about
missing source files, and the completion endpoint is never contacted (empty
request trace: the generator's only network call is the completion
request). -/
theorem c5_empty_file_list_input_error (key : Bool) (repoInfo : Option RepoIdentity)
    (structureResult : Except HttpFailure RepositoryStructure)
    (completion : CompletionData) (i : RepoIdentity) (st : RepositoryStructure)
    (hkey : key = true) (hrepo : repoInfo = some i) (hs : structureResult = .ok st) :
    (generateDocumentation key repoInfo structureResult [] completion).1 =
      .error (.inputError ("No source files found. Please ensure the repository contains JavaScript/TypeScript files.")) ∧
    (generateDocumentation key repoInfo structureResult [] completion).2 = [] := by
  subst hkey
  subst hrepo
  subst hs
  constructor <;> simp [generateDocumentation]

/-- Witness for C5 at a concrete run. -/
theorem c5_empty_file_list_input_error_witness :
    (generateDocumentation true (some ⟨"o", "r"⟩) (.ok ⟨none, none, none⟩) [] ⟨none⟩).1 =
      .error (.inputError ("No source files found. Please ensure the repository contains JavaScript/TypeScript files.")) ∧
    (generateDocumentation true (some ⟨"o", "r"⟩) (.ok ⟨none, none, none⟩) [] ⟨none⟩).2 = [] :=
  c5_empty_file_list_input_error true (some ⟨"o", "r"⟩) (.ok ⟨none, none, none⟩)
    ⟨none⟩ ⟨"o", "r"⟩ ⟨none, none, none⟩ rfl rfl rfl

/-- Claim C6: a connect whose lookup returns 200 overwrites the storage slot
with exactly the parsed identity; a connect that fails in any way leaves the
slot unchanged. -/
theorem c6_connect_cache_update (token : Bool) (url : List Char)
    (lookup : Except HttpFailure Nat) (store : Option RepoIdentity) :
    (∀ o r, token = true → parseRepoUrl url = .ok (o, r) → lookup = .ok 200 →
      (connectRepository token url lookup store).2 = some ⟨o, r⟩) ∧
    (∀ e, (connectRepository token url lookup store).1 = .failed e →
      (connectRepository token url lookup store).2 = store) := by
  constructor
  · intro o r htok hp hl
    subst htok
    subst hl
    simp [connectRepository, hp]
  · intro e hfail
    cases token with
    | false => simp [connectRepository]
    | true =>
      cases hp : parseRepoUrl url with
      | error e2 => simp [connectRepository, hp]
      | ok pr =>
        obtain ⟨o, r⟩ := pr
        cases hl : lookup with
        | error f => simp [connectRepository, hp, hl]
        | ok code =>
          by_cases hcode : code = 200
          · exfalso
            simp [connectRepository, hp, hl, hcode] at hfail
          · simp [connectRepository, hp, hl, hcode]

/-- Witness for C6 at a concrete successful connect. -/
theorem c6_connect_cache_update_witness :
    (connectRepository true ("github.com/a/b".toList) (.ok 200) none).2 =
      some ⟨"a", "b"⟩ :=
  (c6_connect_cache_update true ("github.com/a/b".toList) (.ok 200) none).1
    "a" "b" rfl rfl rfl

/-- Claim C9: the structure fetch always propagates a metadata failure, and
otherwise succeeds with the `package.json` and `README.md` results each
independently degraded to `null` on fetch (or parse) failure. -/
theorem c9_structure_fetch_degrades (m : Except HttpFailure RepoMetadata)
    (p : Except HttpFailure String) (parseJson : String → Option PackageJson)
    (r : Except HttpFailure String) :
    (∀ e, m = .error e → getRepositoryStructure m p parseJson r = .error e) ∧
    (∀ meta, m = .ok meta → ∃ st, getRepositoryStructure m p parseJson r = .ok st ∧
      st.description = meta.description ∧
      (∀ e, p = .error e → st.packageJson = none) ∧
      (∀ s, p = .ok s → st.packageJson = parseJson s) ∧
      (∀ e, r = .error e → st.readme = none) ∧
      (∀ s, r = .ok s → st.readme = some s)) := by
  constructor
  · intro e he
    subst he
    rfl
  · intro meta hm
    subst hm
    refine ⟨⟨meta.description,
      (match p with | .ok s => parseJson s | .error _ => none),
      (match r with | .ok s => some s | .error _ => none)⟩, rfl, rfl, ?_, ?_, ?_, ?_⟩
    · intro e he
      subst he
      rfl
    · intro s hs
      subst hs
      rfl
    · intro e he
      subst he
      rfl
    · intro s hs
      subst hs
      rfl

/-- Witness for C9: metadata present, manifest fetch 404, readme present. -/
theorem c9_structure_fetch_degrades_witness :
    ∃ st, getRepositoryStructure (.ok ⟨some ("d")⟩) (.error (.status 404))
        (fun _ => none) (.ok ("R")) = .ok st ∧
      st.description = some ("d") ∧
      (∀ e, (.error (.status 404) : Except HttpFailure String) = .error e →
        st.packageJson = none) ∧
      (∀ s, (.error (.status 404) : Except HttpFailure String) = .ok s →
        st.packageJson = (fun _ => none) s) ∧
      (∀ e, (.ok ("R") : Except HttpFailure String) = .error e → st.readme = none) ∧
      (∀ s, (.ok ("R") : Except HttpFailure String) = .ok s → st.readme = some s) :=
  (c9_structure_fetch_degrades (.ok ⟨some ("d")⟩) (.error (.status 404))
    (fun _ => none) (.ok ("R"))).2 ⟨some ("d")⟩ rfl

/-- Claim C10: whenever the fetched structure carries a README body, every
request payload the generate flow sends to the completion endpoint contains
that body as a contiguous substring of its user message. -/
theorem c10_readme_roundtrip (key : Bool) (repoInfo : Option RepoIdentity)
    (structureResult : Except HttpFailure RepositoryStructure)
    (files : List SourceFile) (completion : CompletionData)
    (st : RepositoryStructure) (r : String)
    (hs : structureResult = .ok st) (hr : st.readme = some r) :
    ∀ req ∈ (generateDocumentation key repoInfo structureResult files completion).2,
      ∃ pre post, req.userContent = pre ++ r ++ post := by
  subst hs
  intro req hreq
  cases key with
  | false => simp [generateDocumentation] at hreq
  | true =>
    cases repoInfo with
    | none => simp [generateDocumentation] at hreq
    | some repoInfo =>
      by_cases hlen : files.length = 0
      · simp [generateDocumentation, hlen] at hreq
      · have htrace : (generateDocumentation true (some repoInfo) (.ok st) files completion).2 =
            [buildRequest repoInfo st files] := by
          cases hx : extractDocumentation completion with
          | error e => simp [generateDocumentation, hlen, hx]
          | ok doc => simp [generateDocumentation, hlen, hx]
        rw [htrace] at hreq
        have hreqeq : req = buildRequest repoInfo st files := by simpa using hreq
        subst hreqeq
        show ∃ pre post, buildPrompt repoInfo st files = pre ++ r ++ post
        unfold buildPrompt
        by_cases hre : r = ""
        · refine ⟨promptPre repoInfo st ++ readmeBlock st.readme, promptPost st files, ?_⟩
          rw [hre, str_append_empty]
        · have hblock : readmeBlock st.readme = "\nFrom README:\n" ++ r := by
            rw [hr]
            simp [readmeBlock, hre]
          refine ⟨promptPre repoInfo st ++ "\nFrom README:\n", promptPost st files, ?_⟩
          rw [hblock, str_append_assoc (promptPre repoInfo st) ("\nFrom README:\n") r]

/-- Witness for C10 at a concrete run that reaches the completion call. -/
theorem c10_readme_roundtrip_witness :
    ∃ pre post, (buildRequest ⟨"o", "r"⟩ c10St c10Files).userContent =
      pre ++ "MYREADME" ++ post :=
  c10_readme_roundtrip true (some ⟨"o", "r"⟩) (.ok c10St) c10Files c10Completion
    c10St ("MYREADME") rfl rfl (buildRequest ⟨"o", "r"⟩ c10St c10Files)
    (List.Mem.head _)
